import Mathlib

/-!
Verification of the expense-tracker record store and aggregator in
`src/app.py`.

The program persists a flat table (columns Date, Type, Category, Amount,
Notes) to an Excel file and derives totals, category breakdowns and
month-filtered views from the loaded table.

Embedding choices:
* A persisted cell of the `Date` column either parses to a calendar date
  or not; `pd.to_datetime(..., errors='coerce')` followed by
  `dropna(subset=["Date"])` is modelled by storing `Option CalDate` in a
  raw row and keeping exactly the rows whose date is `some d`.
* `pd.read_excel` labels rows `0, 1, ...` by file position and `dropna`
  keeps those labels, so a loaded frame is a list of (label, row) pairs
  produced by `List.enum` followed by `filterMap`.
* The file system state is `Option ExcelFile`: `none` when
  `my_expenses.xlsx` is absent, `some f` when present.
* Amounts are rationals (the source stores non-negative decimals).
-/

/-- A calendar date, as produced by a successful `pd.to_datetime` parse. -/
structure CalDate where
  year : Nat
  month : Nat
  day : Nat
deriving DecidableEq, Repr

/-- A row as persisted in the Excel file: the `Date` cell either parses to
a calendar date (`some d`) or is malformed (`none`, which `pd.to_datetime`
coerces to `NaT`). -/
structure RawRow where
  date : Option CalDate
  type : String
  category : String
  amount : ℚ
  notes : String
deriving DecidableEq, Repr

/-- A loaded row, after date parsing and `dropna`: the date is valid. -/
structure Row where
  date : CalDate
  type : String
  category : String
  amount : ℚ
  notes : String
deriving DecidableEq, Repr

/-- The fixed column schema of the persisted file (`app.py` line 16). -/
def schema : List String := ["Date", "Type", "Category", "Amount", "Notes"]

/-- The persisted Excel file: a column header and a list of raw rows. -/
structure ExcelFile where
  header : List String
  rows : List RawRow
deriving DecidableEq, Repr

/-- The file-system state: `none` when `my_expenses.xlsx` does not exist. -/
def FileState : Type := Option ExcelFile

instance : DecidableEq FileState := by
  unfold FileState; infer_instance

/-- Date parsing of one raw row (`pd.to_datetime` + `dropna`): succeeds
exactly when the stored date cell is a valid calendar date. -/
def parseRow (r : RawRow) : Option Row :=
  match r.date with
  | some d => some ⟨d, r.type, r.category, r.amount, r.notes⟩
  | none => none

/-- Writing a loaded row back to the file (`df.to_excel`): the datetime
object is kept, so the stored date cell is valid. -/
def toRaw (r : Row) : RawRow :=
  ⟨some r.date, r.type, r.category, r.amount, r.notes⟩

/-- The loaded data frame of an existing file: `pd.read_excel` labels the
rows by file position (`List.enum`), then date parsing drops rows with
malformed dates while keeping the labels of the survivors (`dropna`). -/
def load_df (f : ExcelFile) : List (Nat × Row) :=
  f.rows.enum.filterMap fun p => (parseRow p.2).map fun row => (p.1, row)

/-- `load_data` (`app.py` lines 13-29): if the file is absent, create an
empty one with the fixed schema and return an empty frame; otherwise read
the file, coerce the Date column and drop rows with malformed dates.
Returns the resulting file-system state and the loaded frame. -/
def load_data (fs : FileState) : FileState × List (Nat × Row) :=
  match fs with
  | none => (some ⟨schema, []⟩, [])
  | some f => (some f, load_df f)

/-- The rows of the loaded frame, without their index labels. -/
def loadedRows (fs : FileState) : List Row :=
  ((load_data fs).2).map Prod.snd

/-- `save_data` (`app.py` lines 31-47): load, append the new row with
`ignore_index=True`, and rewrite the whole file. -/
def save_data (fs : FileState) (date : CalDate) (trans_type category : String)
    (amount : ℚ) (notes : String) : FileState :=
  let p := load_data fs
  let df := p.2
  some ⟨schema, df.map (fun q => toRaw q.2) ++ [toRaw ⟨date, trans_type, category, amount, notes⟩]⟩

/-- `delete_data` (`app.py` lines 49-59): load, and if `original_index` is
one of the frame's index labels, drop that row, reset the index and
rewrite the file, returning `true`; otherwise return `false` without
writing. -/
def delete_data (fs : FileState) (original_index : Nat) : FileState × Bool :=
  let p := load_data fs
  let df := p.2
  if original_index ∈ df.map Prod.fst then
    (some ⟨schema, (df.filter fun q => q.1 ≠ original_index).map fun q => toRaw q.2⟩, true)
  else
    (p.1, false)

/-- The raw rows currently persisted (empty when the file is absent). -/
def fileRows (fs : FileState) : List RawRow :=
  match fs with
  | none => []
  | some f => f.rows

/-- `money_in` (`app.py` line 104): sum of Amount over rows whose Type is
in `["Income", "Debt Repaid"]`. -/
def money_in (rows : List Row) : ℚ :=
  ((rows.filter fun r => (["Income", "Debt Repaid"] : List String).contains r.type).map
    (fun r => r.amount)).sum

/-- `money_out` (`app.py` line 105): sum of Amount over rows whose Type is
in `["Expense", "Debt Given"]`. -/
def money_out (rows : List Row) : ℚ :=
  ((rows.filter fun r => (["Expense", "Debt Given"] : List String).contains r.type).map
    (fun r => r.amount)).sum

/-- `balance` (`app.py` line 106). -/
def balance (rows : List Row) : ℚ :=
  money_in rows - money_out rows

/-- The month filter (`app.py` lines 85-92): rows whose date has the
selected year and month, in order. -/
def filterByMonth (rows : List Row) (year month : Nat) : List Row :=
  rows.filter fun r => r.date.year == year && r.date.month == month

/-- `expenses_df` (`app.py` line 119): the Expense-typed rows. -/
def expenses_df (rows : List Row) : List Row :=
  rows.filter fun r => r.type == "Expense"

/-- The category breakdown drawn by the pie chart (`app.py` line 121):
each category is mapped to the summed Amount of the Expense rows bearing
it. -/
def categoryBreakdown (rows : List Row) (c : String) : ℚ :=
  (((expenses_df rows).filter fun r => r.category == c).map (fun r => r.amount)).sum

/-- The outcome of the entry form's submit handler. -/
inductive SubmitResult where
  | errAmountNonpositive
  | errCategoryEmpty
  | saved
deriving DecidableEq, Repr

/-- The submit handler (`app.py` lines 173-182): reject a non-positive
amount, then an empty category (both with an error message and no write);
otherwise save. -/
def submit_entry (fs : FileState) (date : CalDate) (trans_type category : String)
    (amount : ℚ) (notes : String) : FileState × SubmitResult :=
  if amount ≤ 0 then (fs, .errAmountNonpositive)
  else if category = "" then (fs, .errCategoryEmpty)
  else (save_data fs date trans_type category amount notes, .saved)

/-! ### Helper lemmas about loading -/

lemma enumFrom_filterMap_parse_map_snd (l : List RawRow) (n : Nat) :
    ((l.enumFrom n).filterMap fun p => (parseRow p.2).map fun row => (p.1, row)).map Prod.snd
      = l.filterMap parseRow := by
  induction l generalizing n with
  | nil => rfl
  | cons r t ih =>
    cases h : parseRow r <;>
      simp [List.enumFrom, List.filterMap_cons, h, ih]

lemma map_snd_load_df (f : ExcelFile) :
    (load_df f).map Prod.snd = f.rows.filterMap parseRow := by
  simpa [load_df, List.enum] using enumFrom_filterMap_parse_map_snd f.rows 0

lemma parseRow_toRaw (r : Row) : parseRow (toRaw r) = some r := by
  cases r; rfl

lemma filterMap_parse_map_toRaw (l : List Row) :
    (l.map toRaw).filterMap parseRow = l := by
  induction l with
  | nil => rfl
  | cons r t ih => simp [List.filterMap_cons, parseRow_toRaw, ih]

lemma map_toRaw_filterMap (l : List RawRow) :
    (l.filterMap parseRow).map toRaw = l.filter fun r => r.date.isSome := by
  induction l with
  | nil => rfl
  | cons r t ih =>
    cases hd : r.date with
    | none => simp [List.filterMap_cons, List.filter_cons, parseRow, hd, ih]
    | some d =>
      have : toRaw ⟨d, r.type, r.category, r.amount, r.notes⟩ = r := by
        cases r; simp_all [toRaw]
      simp [List.filterMap_cons, List.filter_cons, parseRow, hd, ih, this]

lemma enumFrom_filterMap_parse_valid (l : List RawRow) (n : Nat)
    (h : ∀ r ∈ l, r.date.isSome = true) :
    ((l.enumFrom n).filterMap fun p => (parseRow p.2).map fun row => (p.1, row))
      = (l.filterMap parseRow).enumFrom n := by
  induction l generalizing n with
  | nil => rfl
  | cons r t ih =>
    obtain ⟨d, hd⟩ := Option.isSome_iff_exists.mp (h r (by simp))
    have hp : parseRow r = some ⟨d, r.type, r.category, r.amount, r.notes⟩ := by
      simp [parseRow, hd]
    simp [List.enumFrom, List.filterMap_cons, hp,
      ih (n + 1) fun x hx => h x (by simp [hx])]

lemma load_df_map_toRaw (hdr : List String) (l : List Row) :
    load_df ⟨hdr, l.map toRaw⟩ = l.enum := by
  have hv : ∀ r ∈ l.map toRaw, r.date.isSome = true := by
    intro r hr
    obtain ⟨x, _, rfl⟩ := List.mem_map.mp hr
    rfl
  simp only [load_df, List.enum]
  rw [enumFrom_filterMap_parse_valid (l.map toRaw) 0 hv, filterMap_parse_map_toRaw]

lemma map_toRaw_snd (l : List (Nat × Row)) :
    (l.map fun q => toRaw q.2) = (l.map Prod.snd).map toRaw := by
  simp [List.map_map]

lemma enumFrom_filter_ne_map_snd (l : List Row) (n k : Nat) (hk : n ≤ k) :
    (((l.enumFrom n).filter fun p => p.1 ≠ k).map Prod.snd) = l.eraseIdx (k - n) := by
  induction l generalizing n with
  | nil => rfl
  | cons a t ih =>
    by_cases hkn : k = n
    · subst hkn
      have hkeep : ((t.enumFrom (k + 1)).filter fun p => p.1 ≠ k) = t.enumFrom (k + 1) := by
        apply List.filter_eq_self.mpr
        intro p hp
        have hle := List.le_fst_of_mem_enumFrom hp
        simp only [ne_eq, decide_eq_true_eq]
        omega
      show ((((k, a) :: t.enumFrom (k + 1)).filter fun p => p.1 ≠ k).map Prod.snd)
          = (a :: t).eraseIdx (k - k)
      rw [List.filter_cons, if_neg (by simp), hkeep, List.enumFrom_map_snd, Nat.sub_self]
      rfl
    · have hlt : n + 1 ≤ k := by omega
      have hsub : k - n = (k - (n + 1)) + 1 := by omega
      show ((((n, a) :: t.enumFrom (n + 1)).filter fun p => p.1 ≠ k).map Prod.snd)
          = (a :: t).eraseIdx (k - n)
      rw [List.filter_cons, if_pos (by simp; omega), hsub]
      show a :: (((t.enumFrom (n + 1)).filter fun p => p.1 ≠ k).map Prod.snd)
          = a :: t.eraseIdx (k - (n + 1))
      rw [ih (n + 1) hlt]

/-! ### Claim theorems -/

/-- C1: over any loaded frame, `money_in` sums the Amount of rows whose
Type is Income or Debt Repaid, `money_out` sums the Amount of rows whose
Type is Expense or Debt Given, and `balance` is their difference. -/
theorem claim_C1 (rows : List Row) :
    money_in rows
      = (rows.map fun r => if r.type = "Income" ∨ r.type = "Debt Repaid" then r.amount else 0).sum ∧
    money_out rows
      = (rows.map fun r => if r.type = "Expense" ∨ r.type = "Debt Given" then r.amount else 0).sum ∧
    balance rows = money_in rows - money_out rows := by
  refine ⟨?_, ?_, rfl⟩
  · induction rows with
    | nil => rfl
    | cons r t ih =>
      by_cases h1 : r.type = "Income" <;> by_cases h2 : r.type = "Debt Repaid" <;>
        simp [money_in, List.filter_cons, List.elem_eq_mem, h1, h2] <;>
        simp [money_in, List.filter_cons, List.elem_eq_mem] at ih <;>
        rw [ih]
  · induction rows with
    | nil => rfl
    | cons r t ih =>
      by_cases h1 : r.type = "Expense" <;> by_cases h2 : r.type = "Debt Given" <;>
        simp [money_out, List.filter_cons, List.elem_eq_mem, h1, h2] <;>
        simp [money_out, List.filter_cons, List.elem_eq_mem] at ih <;>
        rw [ih]

/-- The March 2024 row of the spec's concrete month-filter example. -/
def marchRow : Row := ⟨⟨2024, 3, 15⟩, "Expense", "Food", 20, ""⟩

/-- The April 2024 row of the spec's concrete month-filter example. -/
def aprilRow : Row := ⟨⟨2024, 4, 2⟩, "Income", "Salary", 30, ""⟩

/-- C3: the month filter returns exactly the subsequence of rows whose
date has the selected year and month, in the original order, and on the
concrete March/April example it returns exactly the March row. -/
theorem claim_C3 (rows : List Row) (year month : Nat) :
    (filterByMonth rows year month).Sublist rows ∧
    (∀ r, r ∈ filterByMonth rows year month
      ↔ r ∈ rows ∧ r.date.year = year ∧ r.date.month = month) ∧
    filterByMonth [marchRow, aprilRow] 2024 3 = [marchRow] := by
  refine ⟨List.filter_sublist _, ?_, by decide⟩
  intro r
  simp [filterByMonth, List.mem_filter]

/-- C6: loading an existing file leaves it untouched and returns exactly
the rows whose Date cell parses to a valid calendar date, in order;
malformed rows are dropped with no error (loading is a total function). -/
theorem claim_C6 (f : ExcelFile) :
    (load_data (some f)).1 = some f ∧
    (loadedRows (some f)).map toRaw = f.rows.filter fun r => r.date.isSome := by
  refine ⟨rfl, ?_⟩
  simp [loadedRows, load_data, map_snd_load_df, map_toRaw_filterMap]

/-- C7: when the file is absent, `load_data` creates it empty with the
fixed schema `Date, Type, Category, Amount, Notes` and returns an empty
frame. -/
theorem claim_C7 :
    load_data none = (some ⟨["Date", "Type", "Category", "Amount", "Notes"], []⟩, []) ∧
    schema = ["Date", "Type", "Category", "Amount", "Notes"] :=
  ⟨rfl, rfl⟩

lemma loadedRows_some (f : ExcelFile) :
    loadedRows (some f) = f.rows.filterMap parseRow := by
  simp [loadedRows, load_data, map_snd_load_df]

lemma map_toRaw_loadedRows (f : ExcelFile) :
    (loadedRows (some f)).map toRaw = f.rows.filter fun r => r.date.isSome := by
  rw [loadedRows_some, map_toRaw_filterMap]

lemma save_data_eq (fs : FileState) (d : CalDate) (t c : String) (a : ℚ) (no : String) :
    save_data fs d t c a no = some ⟨schema, (loadedRows fs ++ [Row.mk d t c a no]).map toRaw⟩ := by
  simp [save_data, loadedRows, map_toRaw_snd]

lemma loadedRows_map_toRaw (hdr : List String) (l : List Row) :
    loadedRows (some ⟨hdr, l.map toRaw⟩) = l := by
  simp only [loadedRows, load_data, load_df_map_toRaw, List.enum_map_snd]

lemma loadedRows_save (fs : FileState) (d : CalDate) (t c : String) (a : ℚ) (no : String) :
    loadedRows (save_data fs d t c a no) = loadedRows fs ++ [Row.mk d t c a no] := by
  rw [save_data_eq, loadedRows_map_toRaw]

/-- C8: appending any list of transactions to any store state and then
loading returns the previously loaded rows followed by the new
transactions, every field preserved. -/
theorem claim_C8 (ts : List Row) (fs : FileState) :
    loadedRows (ts.foldl
      (fun s r => save_data s r.date r.type r.category r.amount r.notes) fs)
      = loadedRows fs ++ ts := by
  induction ts generalizing fs with
  | nil => simp
  | cons r t ih =>
    simp [List.foldl_cons, ih, loadedRows_save, List.append_assoc]

/-- C5: the submit handler rejects a non-positive amount, then an empty
category, each with a distinct error and no change to the store; with a
positive amount and non-empty category it saves the entry. -/
theorem claim_C5 (fs : FileState) (d : CalDate) (t c : String) (a : ℚ) (no : String) :
    (a ≤ 0 → submit_entry fs d t c a no = (fs, SubmitResult.errAmountNonpositive)) ∧
    (0 < a → c = "" → submit_entry fs d t c a no = (fs, SubmitResult.errCategoryEmpty)) ∧
    (0 < a → c ≠ "" → submit_entry fs d t c a no
      = (save_data fs d t c a no, SubmitResult.saved)) := by
  refine ⟨fun h => by simp [submit_entry, h], fun h1 h2 => ?_, fun h1 h2 => ?_⟩
  · simp [submit_entry, not_le.mpr h1, h2]
  · simp [submit_entry, not_le.mpr h1, h2]

/-- Witness for C5 at concrete inputs: amount 0 is rejected, an empty
category is rejected, and a positive amount with non-empty category is
saved. -/
theorem claim_C5_witness :
    submit_entry none ⟨2024, 1, 1⟩ "Expense" "Food" 0 "" = (none, SubmitResult.errAmountNonpositive) ∧
    submit_entry none ⟨2024, 1, 1⟩ "Expense" "" 5 "" = (none, SubmitResult.errCategoryEmpty) ∧
    submit_entry none ⟨2024, 1, 1⟩ "Expense" "Food" 5 ""
      = (save_data none ⟨2024, 1, 1⟩ "Expense" "Food" 5 "", SubmitResult.saved) :=
  ⟨(claim_C5 none ⟨2024, 1, 1⟩ "Expense" "Food" 0 "").1 le_rfl,
   (claim_C5 none ⟨2024, 1, 1⟩ "Expense" "" 5 "").2.1 (by norm_num) rfl,
   (claim_C5 none ⟨2024, 1, 1⟩ "Expense" "Food" 5 "").2.2 (by norm_num) (by decide)⟩

/-- C9 counterexample: when the file is absent, a failed delete still
changes the persisted state, because `load_data` creates the empty file as
a side effect. -/
theorem claim_C9_counterexample :
    (delete_data none 0).2 = false ∧ (delete_data none 0).1 ≠ (none : FileState) := by
  refine ⟨rfl, ?_⟩
  intro hc
  exact Option.noConfusion hc

/-- C9 amended: when the file already exists, a delete that returns false
performs no write: the persisted state is exactly what it was. -/
theorem claim_C9_amended (f : ExcelFile) (i : Nat)
    (h : (delete_data (some f) i).2 = false) :
    (delete_data (some f) i).1 = some f := by
  by_cases hmm : i ∈ (load_df f).map Prod.fst
  · exfalso
    simp [delete_data, load_data, hmm] at h
  · simp [delete_data, load_data, hmm]

/-- Witness for the amended C9: deleting index 3 from an existing empty
file returns false and leaves the file untouched. -/
theorem claim_C9_amended_witness :
    (delete_data (some ⟨schema, []⟩) 3).1 = some (⟨schema, []⟩ : ExcelFile) :=
  claim_C9_amended ⟨schema, []⟩ 3 rfl

/-- A persisted file whose first row has a malformed date: loading drops
it but keeps the pandas index label 1 on the surviving row. -/
def exFileC2 : ExcelFile :=
  ⟨schema, [⟨none, "Expense", "Food", 5, "bad date"⟩,
            ⟨some ⟨2024, 3, 10⟩, "Income", "Salary", 7, ""⟩]⟩

/-- C2 counterexample: on `exFileC2` the loaded frame has one row, yet
`delete_data 0` returns false and changes nothing, because after `dropna`
the surviving row keeps index label 1, so 0 is not a label even though
0 < number of rows. -/
theorem claim_C2_counterexample :
    (loadedRows (some exFileC2)).length = 1 ∧
    delete_data (some exFileC2) 0 = (some exFileC2, false) := by
  exact ⟨rfl, rfl⟩

/-- C2 amended: when every persisted row has a parseable date (which holds
for every file the app itself writes), index labels coincide with ordinal
positions, and `delete_data i` removes the row at ordinal position `i`
for `0 ≤ i <` number of rows — reloading yields the remaining rows
reindexed `0, 1, ...` with subsequent rows shifted down by one — and
returns false, without writing, when `i` is out of that range. -/
theorem claim_C2_amended (f : ExcelFile)
    (h : ∀ r ∈ f.rows, r.date.isSome = true) (i : Nat) :
    (i < (loadedRows (some f)).length →
      (delete_data (some f) i).2 = true ∧
      (load_data (delete_data (some f) i).1).2
        = List.enum ((loadedRows (some f)).eraseIdx i)) ∧
    (¬ i < (loadedRows (some f)).length →
      delete_data (some f) i = (some f, false)) := by
  have hdf : load_df f = (f.rows.filterMap parseRow).enum := by
    simp only [load_df, List.enum]
    exact enumFrom_filterMap_parse_valid f.rows 0 h
  have hlr : loadedRows (some f) = f.rows.filterMap parseRow := loadedRows_some f
  have hfst : (load_df f).map Prod.fst = List.range (f.rows.filterMap parseRow).length := by
    rw [hdf, List.enum_map_fst]
  constructor
  · intro hi
    rw [hlr] at hi
    have hmm : i ∈ (load_df f).map Prod.fst := by
      rw [hfst]
      exact List.mem_range.mpr hi
    have hrows : ((load_df f).filter fun q => q.1 ≠ i).map (fun q => toRaw q.2)
        = ((f.rows.filterMap parseRow).eraseIdx i).map toRaw := by
      rw [map_toRaw_snd, hdf]
      congr 1
      have hz := enumFrom_filter_ne_map_snd (f.rows.filterMap parseRow) 0 i (Nat.zero_le i)
      simpa [List.enum] using hz
    have hbranch : delete_data (some f) i
        = (some ⟨schema, ((f.rows.filterMap parseRow).eraseIdx i).map toRaw⟩, true) := by
      simp only [delete_data, load_data, hmm, if_pos]
      rw [hrows]
    refine ⟨by rw [hbranch], ?_⟩
    rw [hbranch]
    simp only [load_data]
    rw [load_df_map_toRaw, hlr]
  · intro hi
    rw [hlr] at hi
    have hmm : i ∉ (load_df f).map Prod.fst := by
      rw [hfst]
      exact fun hc => hi (List.mem_range.mp hc)
    simp [delete_data, load_data, hmm]

/-- A two-row file with valid dates, used to witness the amended C2. -/
def exFileC2W : ExcelFile :=
  ⟨schema, [⟨some ⟨2024, 3, 1⟩, "Expense", "Food", 3, ""⟩,
            ⟨some ⟨2024, 4, 2⟩, "Income", "Salary", 4, ""⟩]⟩

/-- Witness for the amended C2: deleting ordinal index 0 from a two-row
all-valid file succeeds, and the reloaded frame is the remaining row
reindexed from 0. -/
theorem claim_C2_amended_witness :
    (delete_data (some exFileC2W) 0).2 = true ∧
    (load_data (delete_data (some exFileC2W) 0).1).2
      = List.enum ((loadedRows (some exFileC2W)).eraseIdx 0) :=
  (claim_C2_amended exFileC2W (by decide) 0).1 (by decide)

/-- C10: a successful append permanently rewrites the file as the
date-valid rows followed by the new entry — rows with unparseable dates
are removed from the file itself, not merely hidden — and a successful
delete likewise leaves only rows with parseable dates in the file. -/
theorem claim_C10 (f : ExcelFile) (d : CalDate) (t c no : String) (a : ℚ) (i : Nat) :
    fileRows (save_data (some f) d t c a no)
      = (f.rows.filter fun r => r.date.isSome) ++ [toRaw (Row.mk d t c a no)] ∧
    ((delete_data (some f) i).2 = true →
      (fileRows (delete_data (some f) i).1).all (fun r => r.date.isSome) = true) := by
  constructor
  · rw [save_data_eq]
    simp only [fileRows]
    rw [List.map_append, map_toRaw_loadedRows]
    rfl
  · intro hdel
    by_cases hmm : i ∈ (load_df f).map Prod.fst
    · simp only [delete_data, load_data, hmm, if_pos, fileRows]
      rw [map_toRaw_snd, List.all_eq_true]
      intro x hx
      obtain ⟨y, _, rfl⟩ := List.mem_map.mp hx
      rfl
    · exfalso
      simp [delete_data, load_data, hmm] at hdel

/-- A file with one malformed-date row and one valid row, witnessing C10. -/
def exFileC10 : ExcelFile :=
  ⟨schema, [⟨none, "Expense", "Ghost", 1, ""⟩,
            ⟨some ⟨2024, 5, 5⟩, "Expense", "Food", 2, ""⟩]⟩

/-- Witness for C10: appending to `exFileC10` drops its malformed row from
the persisted file, and a successful delete leaves only date-valid rows. -/
theorem claim_C10_witness :
    fileRows (save_data (some exFileC10) ⟨2024, 6, 1⟩ "Income" "Salary" 9 "")
      = (exFileC10.rows.filter fun r => r.date.isSome)
        ++ [toRaw (Row.mk ⟨2024, 6, 1⟩ "Income" "Salary" 9 "")] ∧
    (fileRows (delete_data (some exFileC10) 1).1).all (fun r => r.date.isSome) = true :=
  ⟨(claim_C10 exFileC10 ⟨2024, 6, 1⟩ "Income" "Salary" "" 9 1).1,
   (claim_C10 exFileC10 ⟨2024, 6, 1⟩ "Income" "Salary" "" 9 1).2 (by decide)⟩

/-- Summing the per-category fibers of a list of rows over its distinct
categories recovers the total of all its amounts. -/
lemma sum_breakdown (l : List Row) :
    ∑ c ∈ ((l.map fun r => r.category).toFinset),
      ((l.filter fun r => r.category == c).map fun r => r.amount).sum
      = (l.map fun r => r.amount).sum := by
  induction l with
  | nil => simp
  | cons r t ih =>
    have hsplit : ∀ c, (((r :: t).filter fun x => x.category == c).map fun x => x.amount).sum
        = (if r.category = c then r.amount else 0)
          + ((t.filter fun x => x.category == c).map fun x => x.amount).sum := by
      intro c
      by_cases h : r.category = c
      · simp [List.filter_cons, h]
      · simp [List.filter_cons, h]
    rw [List.map_cons, List.toFinset_cons,
      Finset.sum_congr rfl fun c _ => hsplit c, Finset.sum_add_distrib,
      Finset.sum_ite_eq, if_pos (Finset.mem_insert_self _ _)]
    by_cases hc : r.category ∈ (t.map fun r => r.category).toFinset
    · rw [Finset.insert_eq_of_mem hc, ih, List.map_cons, List.sum_cons]
    · rw [Finset.sum_insert hc]
      have hzero : (t.filter fun x => x.category == r.category) = [] := by
        apply List.filter_eq_nil_iff.mpr
        intro x hx hbeq
        exact hc (List.mem_toFinset.mpr (List.mem_map.mpr
          ⟨x, hx, by simpa using hbeq⟩))
      rw [hzero, ih, List.map_cons, List.sum_cons]
      simp

/-- C4: the category breakdown maps each category to the summed Amount of
the Expense rows bearing it, and summing it over all categories appearing
among the Expense rows yields `money_out` restricted to Expense rows —
the Expense-only subtotal. -/
theorem claim_C4 (rows : List Row) :
    (∀ c, categoryBreakdown rows c
      = (((rows.filter fun r => r.type == "Expense").filter
          fun r => r.category == c).map fun r => r.amount).sum) ∧
    ∑ c ∈ ((expenses_df rows).map fun r => r.category).toFinset, categoryBreakdown rows c
      = money_out (rows.filter fun r => r.type == "Expense") := by
  constructor
  · intro c
    rfl
  · have hmo : money_out (rows.filter fun r => r.type == "Expense")
        = ((rows.filter fun r => r.type == "Expense").map fun r => r.amount).sum := by
      unfold money_out
      rw [List.filter_eq_self.mpr]
      intro x hx
      have hty := (List.mem_filter.mp hx).2
      simp only [List.elem_eq_mem, List.mem_cons, List.mem_singleton, decide_eq_true_eq]
      exact Or.inl (by simpa using hty)
    rw [hmo]
    exact sum_breakdown (expenses_df rows)
